import Mathlib

/-!
Verification of the ranking and points-allocation engine of the
EclipseDatabase sports-meet manager.

The definitions below are a shallow embedding of the Python source:

* `src/utils.py` — measurement parsing/formatting
  (`parse_time_input`, `format_time_for_display`, `validate_distance_input`,
  `format_result_value`);
* `src/database.py` — `DatabaseManager._calculate_positions_and_points`,
  `DatabaseManager.add_result`,
  `DatabaseManager._calculate_relay_positions_and_points`,
  `DatabaseManager.recalculate_all_points`.

Numeric result values are modelled as rationals (the Python code stores
floats; all the code does with them is compare, add and scale, and every
value in the claims is a short decimal, so `ℚ` is the faithful idealisation).
Python's `sorted` is a stable sort; `List.insertionSort` with a non-strict
total comparison relation is also stable (an element is inserted after every
earlier element that compares `≤` to it), so it computes the same list.
-/

namespace Eclipse

/-- Gender of an athlete, as recorded on the `students` table
(`GENDER_OPTIONS = ["Male", "Female", "Other"]` in `src/config.py`). -/
inductive Gender where
  | male
  | female
  | other
deriving DecidableEq, Repr

/-- One row of the `results` table, as read and written by
`DatabaseManager._calculate_positions_and_points`.  `gender` is the gender of
the athlete owning the row: in the database it lives on the joined `students`
row, not on `results`; the ranking code in `src/database.py` never reads it,
and it is carried here so the gender-split behaviour demanded by the spec can
be stated. -/
structure RRow where
  result_id : Nat
  curtin_id : String
  event_id : Nat
  gender : Gender
  house : String
  result_value : ℚ
  position : Nat
  points : Nat
deriving DecidableEq, Repr

/-- One row of the `events` table.  `point_allocation` is the JSON
position→points mapping; in the database its keys are strings and
`_calculate_positions_and_points` looks a position up first as `str(position)`
then as the bare int, which collapses to a single lookup keyed by the numeric
position, with 0 for a position outside the table.  `male_point_allocation` /
`female_point_allocation` are the gender-specific tables added by the SQL
migration (`src/migration_script.py` reads them); they may be absent. -/
structure Ev where
  event_id : Nat
  event_type : String
  is_relay : Bool
  point_allocation : List (Nat × Nat)
  male_point_allocation : Option (List (Nat × Nat))
  female_point_allocation : Option (List (Nat × Nat))
deriving DecidableEq, Repr

/-- Lookup in a points table: the mapped points, or 0 when the position is not
in the table (`points = 0` default in the update loop of
`_calculate_positions_and_points`). -/
def lookupPoints (alloc : List (Nat × Nat)) (pos : Nat) : Nat :=
  match alloc.lookup pos with
  | some p => p
  | none => 0

/-- Comparison used for Track events: lower time is better
(`sorted(..., key=lambda x: float(x["result_value"]))`). -/
def trackLe (a b : RRow) : Prop := a.result_value ≤ b.result_value

/-- Comparison used for Field events: higher distance is better
(`sorted(..., key=..., reverse=True)`; Python's reverse sort keeps equal
elements in input order, which is insertion sort under the non-strict
reversed comparison). -/
def fieldLe (a b : RRow) : Prop := b.result_value ≤ a.result_value

instance : DecidableRel trackLe := fun a b =>
  inferInstanceAs (Decidable (a.result_value ≤ b.result_value))

instance : DecidableRel fieldLe := fun a b =>
  inferInstanceAs (Decidable (b.result_value ≤ a.result_value))

instance : IsTotal RRow trackLe := ⟨fun a b => le_total a.result_value b.result_value⟩

instance : IsTrans RRow trackLe := ⟨fun _ _ _ h h2 => le_trans h h2⟩

instance : IsTotal RRow fieldLe := ⟨fun a b => le_total b.result_value a.result_value⟩

instance : IsTrans RRow fieldLe := ⟨fun _ _ _ h h2 => le_trans h2 h⟩

/-- The `for i, result in enumerate(sorted_results)` update loop of
`_calculate_positions_and_points`: the i-th row of the sorted list (counting
from `n`, which the caller passes as 1) receives `position = i + 1` and
`points` from the event's table. -/
def assignPositions (alloc : List (Nat × Nat)) : Nat → List RRow → List RRow
  | _, [] => []
  | n, r :: rest =>
      { r with position := n, points := lookupPoints alloc n } :: assignPositions alloc (n + 1) rest

/-- `DatabaseManager._calculate_positions_and_points`, lines 301–324 of
`src/database.py`, acting on the list of result rows fetched for one event:
sort ascending by `result_value` when `event_type == "Track"`, descending
otherwise, then assign positions 1, 2, … and the points looked up for each
position.  Note that the rows are NOT partitioned by gender. -/
def calculatePositionsAndPoints (event_type : String) (alloc : List (Nat × Nat))
    (rows : List RRow) : List RRow :=
  if event_type = "Track" then
    assignPositions alloc 1 (rows.insertionSort trackLe)
  else
    assignPositions alloc 1 (rows.insertionSort fieldLe)

/-- Default individual points table 1st=10, 2nd=6, 3rd=3, 4th=1
(`DEFAULT_INDIVIDUAL_POINTS` in `src/config.py`). -/
def individualAlloc : List (Nat × Nat) := [(1, 10), (2, 6), (3, 3), (4, 1)]

/-- The per-row persistence step of `_calculate_positions_and_points`:
`supabase.table("results").update({"position": …, "points": …})
.eq("result_id", result["result_id"])` — a stored row takes the position and
points computed for the ranked row with its `result_id`, and is untouched
when no ranked row matches. -/
def applyRanking (ranked : List RRow) (r : RRow) : RRow :=
  match ranked.find? (fun u => u.result_id == r.result_id) with
  | some u => { r with position := u.position, points := u.points }
  | none => r

/-- `DatabaseManager._calculate_positions_and_points(event_id)` acting on the
whole `results` table: look the event up (return unchanged when absent),
fetch the event's rows (return unchanged when there are none), rank them and
persist position/points row by row. -/
def recomputeEvent (events : List Ev) (eid : Nat) (st : List RRow) : List RRow :=
  match events.find? (fun e => e.event_id == eid) with
  | none => st
  | some ev =>
    let eventRows := st.filter (fun r => r.event_id == eid)
    if eventRows.isEmpty then st
    else
      let ranked := calculatePositionsAndPoints ev.event_type ev.point_allocation eventRows
      st.map (fun r => if r.event_id == eid then applyRanking ranked r else r)

/-- `DatabaseManager.add_result`, lines 249–280 of `src/database.py`: check
for an existing Measurement of the same athlete in the same event (failing
without touching the store when one exists), insert the new row with the
sentinel `position = 999` and `points = 0`, then recompute the event.  The
`recalcOk` flag models whether the recomputation step's writes succeed: the
real recomputation swallows its own exceptions (`_handle_database_error`), so
a failed recomputation leaves the inserted row committed and untouched. -/
def addResultWithRecalc (events : List Ev) (st : List RRow) (curtin : String)
    (eid : Nat) (v : ℚ) (g : Gender) (house : String) (newRid : Nat)
    (recalcOk : Bool) : Bool × List RRow :=
  if st.any (fun r => r.curtin_id == curtin && r.event_id == eid) then
    (false, st)
  else
    let st1 := st ++ [⟨newRid, curtin, eid, g, house, v, 999, 0⟩]
    (true, if recalcOk then recomputeEvent events eid st1 else st1)

/-- `add_result` on the successful-persistence path (`recalcOk = true`). -/
def add_result (events : List Ev) (st : List RRow) (curtin : String) (eid : Nat)
    (v : ℚ) (g : Gender) (house : String) (newRid : Nat) : Bool × List RRow :=
  addResultWithRecalc events st curtin eid v g house newRid true

/-- The invariant of at most one Measurement per (athlete, event). -/
def uniquePerAthleteEvent (st : List RRow) : Prop :=
  st.Pairwise fun a b => ¬(a.curtin_id = b.curtin_id ∧ a.event_id = b.event_id)

/-- One row of the `relay_teams` table (the fields
`_calculate_relay_positions_and_points` reads and writes; `result_value` is
nullable — a team may not have a recorded result yet). -/
structure TRow where
  team_id : Nat
  event_id : Nat
  house : String
  result_value : Option ℚ
  position : Nat
  points : Nat
deriving DecidableEq, Repr

/-- `team.get("result_value")` truthiness in
`[team for team in teams_result.data if team.get("result_value")]`: a missing
value and the float `0.0` are both falsy in Python. -/
def relayHasResult (t : TRow) : Bool :=
  match t.result_value with
  | some v => decide (¬ v = 0)
  | none => false

/-- Relay sort: lower time is better
(`sorted(teams_with_results, key=lambda x: float(x["result_value"]))`). -/
def relayLe (a b : TRow) : Prop :=
  a.result_value.getD 0 ≤ b.result_value.getD 0

instance : DecidableRel relayLe := fun a b =>
  inferInstanceAs (Decidable (a.result_value.getD 0 ≤ b.result_value.getD 0))

instance : IsTotal TRow relayLe :=
  ⟨fun a b => le_total (a.result_value.getD 0) (b.result_value.getD 0)⟩

instance : IsTrans TRow relayLe := ⟨fun _ _ _ h h2 => le_trans h h2⟩

/-- The relay update loop (`for i, team in enumerate(sorted_teams)`). -/
def assignRelayPositions (alloc : List (Nat × Nat)) : Nat → List TRow → List TRow
  | _, [] => []
  | n, t :: rest =>
      { t with position := n, points := lookupPoints alloc n } ::
        assignRelayPositions alloc (n + 1) rest

/-- The relay per-row persistence step:
`update({"position": …, "points": …}).eq("team_id", team["team_id"])`. -/
def applyRelayRanking (ranked : List TRow) (t : TRow) : TRow :=
  match ranked.find? (fun u => u.team_id == t.team_id) with
  | some u => { t with position := u.position, points := u.points }
  | none => t

/-- `DatabaseManager._calculate_relay_positions_and_points`, lines 720–756 of
`src/database.py`, acting on the `relay_teams` table for one event: keep the
event's teams (return unchanged when there are none), drop teams without a
(nonzero) result, sort ascending by time, assign positions 1, 2, … and the
event's points, and persist by `team_id`. -/
def recomputeRelayEvent (ev : Ev) (relays : List TRow) : List TRow :=
  let teams := relays.filter (fun t => t.event_id == ev.event_id)
  if teams.isEmpty then relays
  else
    let ranked := assignRelayPositions ev.point_allocation 1
      ((teams.filter relayHasResult).insertionSort relayLe)
    relays.map (applyRelayRanking ranked)

/-- Modelled from the spec (§4.2 construction rule): the Points Table for an
individual-event Competition Group is the gender-matched table, falling back
to the event's default table when the gender-specific table is absent;
relay events use the shared `point_allocation`. -/
def allocForGender (ev : Ev) (g : Gender) : List (Nat × Nat) :=
  match g with
  | Gender.male => ev.male_point_allocation.getD ev.point_allocation
  | Gender.female => ev.female_point_allocation.getD ev.point_allocation
  | Gender.other => ev.point_allocation

/-- Modelled from the spec: the gender-split individual recompute path of
`recalculate_all_points` (the SQL function `recalculate_all_points_correct`
invoked over RPC is not part of `src/`; §4.6 of the spec: `recompute_group`
fetches all Measurements of the Competition Group — the event's rows
restricted to a gender for gender-split individual events — ranks them,
selects the gender-matched Points Table, and persists (position, points) for
every Measurement of the group). -/
def recomputeEventGenderSplit (ev : Ev) (results : List RRow) : List RRow :=
  results.map fun r =>
    if r.event_id == ev.event_id then
      applyRanking
        (calculatePositionsAndPoints ev.event_type (allocForGender ev r.gender)
          (results.filter fun x =>
            x.event_id == ev.event_id && decide (x.gender = r.gender))) r
    else r

/-- The persistent store seen by the Recalculation Orchestrator: individual
results and relay teams. -/
structure DBState where
  results : List RRow
  relays : List TRow
deriving DecidableEq, Repr

/-- Modelled from the spec (§4.6): the per-event dispatch of
`recalculate_all_points` — the relay recompute path for relay events, the
individual/gender-split path otherwise. -/
def dispatchEvent (ev : Ev) (st : DBState) : DBState :=
  if ev.is_relay then { st with relays := recomputeRelayEvent ev st.relays }
  else { st with results := recomputeEventGenderSplit ev st.results }

/-- Modelled from the spec (§4.6): `recalculate_all_points` iterates every
event, dispatching each one to the relay or individual/gender-split
recompute path according to that event's configuration. -/
def recomputeAll (events : List Ev) (st : DBState) : DBState :=
  events.foldl (fun s ev => dispatchEvent ev s) st

/-- The projection of the store onto one event: the pair of its individual
result rows and its relay team rows, in stored order. -/
def projEvent (eid : Nat) (st : DBState) : List RRow × List TRow :=
  (st.results.filter (fun r => r.event_id == eid),
   st.relays.filter (fun t => t.event_id == eid))

/-- Python `str.strip()` (drop whitespace from both ends). -/
def stripChars (cs : List Char) : List Char :=
  ((cs.dropWhile Char.isWhitespace).reverse.dropWhile Char.isWhitespace).reverse

/-- Decimal digit string to number (the digit-accumulating core of Python
`float`). -/
def digitsToNat (cs : List Char) : Nat :=
  cs.foldl (fun n c => 10 * n + (c.toNat - 48)) 0

/-- The sign-free part of Python `float(...)` on the decimal shapes the
application produces: digits, optionally followed by `.` and digits (at least
one digit overall); everything else — including a trailing unit letter —
raises `ValueError`, modelled as `none`.  (Python also accepts exponents,
infinities and underscores; none of those shapes are produced or claimed
here.) -/
def parseUnsignedFloat (cs : List Char) : Option ℚ :=
  let ip := cs.takeWhile Char.isDigit
  let rest := cs.dropWhile Char.isDigit
  match rest with
  | [] => if ip.isEmpty then none else some (digitsToNat ip : ℚ)
  | '.' :: frac =>
      if frac.all Char.isDigit && !(ip.isEmpty && frac.isEmpty) then
        some ((digitsToNat ip : ℚ) + (digitsToNat frac : ℚ) / (10 : ℚ) ^ frac.length)
      else none
  | _ => none

/-- Python `float(...)` with an optional leading sign. -/
def parseFloatChars (cs : List Char) : Option ℚ :=
  match cs with
  | [] => none
  | c :: rest =>
      if c = '-' then (parseUnsignedFloat rest).map (fun q => -q)
      else if c = '+' then parseUnsignedFloat rest
      else parseUnsignedFloat (c :: rest)

/-- Python `str.split(':')`: split on every colon (`splitColon l` is never
empty, so prefixing the current character to the head part loses nothing). -/
def splitColon : List Char → List (List Char)
  | [] => [[]]
  | c :: rest =>
      if c = ':' then [] :: splitColon rest
      else (c :: (splitColon rest).headD []) :: (splitColon rest).tail

/-- `parse_time_input` of `src/utils.py` (lines 17–46), on the character list
of the input string: strip; if a colon is present, demand exactly two parts
(`len(parts) != 2` fails), parse both as floats, reject negative minutes,
negative seconds or seconds ≥ 60, and return `minutes * 60 + seconds`;
otherwise parse a plain float and reject it unless strictly positive. -/
def parse_time_input (cs0 : List Char) : Option ℚ :=
  let cs := stripChars cs0
  if cs.contains ':' then
    match splitColon cs with
    | [p1, p2] =>
        match parseFloatChars p1, parseFloatChars p2 with
        | some minutes, some seconds =>
            if minutes < 0 ∨ seconds < 0 ∨ 60 ≤ seconds then none
            else some (minutes * 60 + seconds)
        | _, _ => none
    | _ => none
  else
    match parseFloatChars cs with
    | some seconds => if seconds ≤ 0 then none else some seconds
    | none => none

/-- `validate_distance_input` of `src/utils.py` (lines 56–62):
`float(distance_str) > 0`, `False` on a parse failure. -/
def validate_distance_input (cs : List Char) : Bool :=
  match parseFloatChars cs with
  | some d => decide (0 < d)
  | none => false

/-- Round-half-to-even, the rounding of Python's float formatting (all the
formatted values in the claims are exact two-decimal values, for which no
rounding happens at all). -/
def roundHalfEven (q : ℚ) : ℤ :=
  if q - ⌊q⌋ < 1 / 2 then ⌊q⌋
  else if 1 / 2 < q - ⌊q⌋ then ⌊q⌋ + 1
  else if Even ⌊q⌋ then ⌊q⌋ else ⌊q⌋ + 1

/-- Decimal digits of a natural number. -/
def renderNat (n : Nat) : List Char :=
  if _h : n < 10 then [Nat.digitChar n]
  else renderNat (n / 10) ++ [Nat.digitChar (n % 10)]
decreasing_by exact Nat.div_lt_self (by omega) (by omega)

/-- The last two digits (for the two forced decimal places of `%.2f`). -/
def twoDigits (m : Nat) : List Char :=
  [Nat.digitChar (m / 10), Nat.digitChar (m % 10)]

/-- Python `f"{y:.2f}"` for the nonnegative values the display code receives:
round to two decimals and print `int.dd`. -/
def fmt2 (y : ℚ) : List Char :=
  let k : Nat := (roundHalfEven (100 * y)).toNat
  renderNat (k / 100) ++ '.' :: twoDigits (k % 100)

/-- Left-pad with zeros to a given width (the `05` of `f"{x:05.2f}"`). -/
def padZeroTo (w : Nat) (cs : List Char) : List Char :=
  List.replicate (w - cs.length) '0' ++ cs

/-- `format_time_for_display` of `src/utils.py` (lines 8–15): seconds below
one minute print as `SS.ss` with an `s` suffix; otherwise
`M:SS.ss` from `int(seconds // 60)` and `seconds % 60` under `:05.2f`. -/
def format_time_for_display (seconds : ℚ) : List Char :=
  if seconds < 60 then fmt2 seconds ++ ['s']
  else
    let minutes : Nat := (⌊seconds / 60⌋).toNat
    renderNat minutes ++ ':' :: padZeroTo 5 (fmt2 (seconds - 60 * minutes))

/-- `format_result_value` of `src/utils.py` (lines 77–82): Track values via
`format_time_for_display`, Field values as `XX.XXm`. -/
def format_result_value (value : ℚ) (event_type : String) : List Char :=
  if event_type = "Track" then format_time_for_display value
  else fmt2 value ++ ['m']

/-- Basic length lemma for the position-assignment loop. -/
theorem assignPositions_length (alloc : List (Nat × Nat)) :
    ∀ (n : Nat) (l : List RRow), (assignPositions alloc n l).length = l.length := by
  intro n l
  induction l generalizing n with
  | nil => rfl
  | cons r rest ih => simp [assignPositions, ih]

/-- The positions handed out by the assignment loop are consecutive, starting
at the loop counter. -/
theorem assignPositions_map_position (alloc : List (Nat × Nat)) :
    ∀ (n : Nat) (l : List RRow),
      (assignPositions alloc n l).map RRow.position = List.range' n l.length := by
  intro n l
  induction l generalizing n with
  | nil => rfl
  | cons r rest ih => simp [assignPositions, List.range', ih]

/-- Every row produced by the assignment loop comes from an input row with the
same `result_value`, `result_id`, `event_id` and `gender`, and its position is
at least the starting counter. -/
theorem assignPositions_mem (alloc : List (Nat × Nat)) :
    ∀ (n : Nat) (l : List RRow) (b : RRow), b ∈ assignPositions alloc n l →
      ∃ c ∈ l, b.result_value = c.result_value ∧ b.result_id = c.result_id ∧
        b.event_id = c.event_id ∧ b.gender = c.gender ∧ n ≤ b.position := by
  intro n l
  induction l generalizing n with
  | nil => intro b hb; cases hb
  | cons r rest ih =>
    intro b hb
    rcases List.mem_cons.mp hb with h | h
    · exact ⟨r, List.mem_cons_self r rest, by simp [h]⟩
    · rcases ih (n + 1) b h with ⟨c, hc, hv⟩
      exact ⟨c, List.mem_cons_of_mem r hc, hv.1, hv.2.1, hv.2.2.1, hv.2.2.2.1, by omega⟩

/-- If the input to the assignment loop is sorted by `r` (a relation on the
`result_value` field only), the output is pairwise related by `r` with
strictly increasing positions. -/
theorem assignPositions_pairwise (alloc : List (Nat × Nat))
    (r : RRow → RRow → Prop)
    (hr : ∀ a b a2 b2 : RRow, a.result_value = a2.result_value →
      b.result_value = b2.result_value → r a b → r a2 b2) :
    ∀ (n : Nat) (l : List RRow), l.Pairwise r →
      (assignPositions alloc n l).Pairwise (fun a b => r a b ∧ a.position < b.position) := by
  intro n l
  induction l generalizing n with
  | nil => intro _; exact List.Pairwise.nil
  | cons x rest ih =>
    intro hp
    rcases List.pairwise_cons.mp hp with ⟨hx, hrest⟩
    refine List.pairwise_cons.mpr ⟨?_, ih (n + 1) hrest⟩
    intro b hb
    rcases assignPositions_mem alloc (n + 1) rest b hb with ⟨c, hc, hv, _, _, _, hpos⟩
    constructor
    · exact hr x c _ b rfl hv.symm (hx c hc)
    · show n < b.position
      omega

/-- Two members of a pairwise-related list are equal or related one way or
the other. -/
theorem pairwise_two_mems {α : Type} {R : α → α → Prop} :
    ∀ {l : List α}, l.Pairwise R → ∀ {a b : α}, a ∈ l → b ∈ l →
      a = b ∨ R a b ∨ R b a := by
  intro l
  induction l with
  | nil => intro _ a b ha; cases ha
  | cons x rest ih =>
    intro hp a b ha hb
    rcases List.pairwise_cons.mp hp with ⟨hx, hrest⟩
    rcases List.mem_cons.mp ha with rfl | ha2
    · rcases List.mem_cons.mp hb with rfl | hb2
      · exact Or.inl rfl
      · exact Or.inr (Or.inl (hx b hb2))
    · rcases List.mem_cons.mp hb with rfl | hb2
      · exact Or.inr (Or.inr (hx a ha2))
      · exact ih hrest ha2 hb2

/-- The recomputed output of an event is pairwise ordered: the sort relation
holds along the list and positions strictly increase. -/
theorem calculatePositionsAndPoints_pairwise_track (alloc : List (Nat × Nat))
    (rows : List RRow) :
    (calculatePositionsAndPoints "Track" alloc rows).Pairwise
      (fun a b => trackLe a b ∧ a.position < b.position) := by
  unfold calculatePositionsAndPoints
  rw [if_pos rfl]
  refine assignPositions_pairwise alloc trackLe ?_ 1 _ (List.sorted_insertionSort trackLe rows)
  intro a b a2 b2 ha hb h
  unfold trackLe at h ⊢
  rw [← ha, ← hb]
  exact h

/-- Field counterpart of `calculatePositionsAndPoints_pairwise_track`. -/
theorem calculatePositionsAndPoints_pairwise_field (alloc : List (Nat × Nat))
    (rows : List RRow) :
    (calculatePositionsAndPoints "Field" alloc rows).Pairwise
      (fun a b => fieldLe a b ∧ a.position < b.position) := by
  unfold calculatePositionsAndPoints
  rw [if_neg (by decide)]
  refine assignPositions_pairwise alloc fieldLe ?_ 1 _ (List.sorted_insertionSort fieldLe rows)
  intro a b a2 b2 ha hb h
  unfold fieldLe at h ⊢
  rw [← ha, ← hb]
  exact h

/-- Claim C7: for every Competition Group with N entrants, after recomputation
the assigned positions are exactly 1, 2, …, N in order — no gaps, no
duplicates — and the empty group yields empty output without error. -/
theorem recompute_positions_exactly_one_to_n (event_type : String)
    (alloc : List (Nat × Nat)) (rows : List RRow) :
    (calculatePositionsAndPoints event_type alloc rows).map RRow.position
        = List.range' 1 rows.length
      ∧ calculatePositionsAndPoints event_type alloc [] = [] := by
  constructor
  · unfold calculatePositionsAndPoints
    split <;>
      rw [assignPositions_map_position, List.length_insertionSort]
  · unfold calculatePositionsAndPoints
    split <;> rfl

/-- Claim C6: in a Track Competition Group a strictly smaller measurement gets
a strictly smaller (better) position; in a Field Competition Group a strictly
larger measurement gets a strictly smaller position. -/
theorem position_respects_measurement (alloc : List (Nat × Nat)) (rows : List RRow)
    (a b : RRow) :
    (a ∈ calculatePositionsAndPoints "Track" alloc rows →
      b ∈ calculatePositionsAndPoints "Track" alloc rows →
      a.result_value < b.result_value → a.position < b.position) ∧
    (a ∈ calculatePositionsAndPoints "Field" alloc rows →
      b ∈ calculatePositionsAndPoints "Field" alloc rows →
      b.result_value < a.result_value → a.position < b.position) := by
  constructor
  · intro ha hb hv
    rcases pairwise_two_mems (calculatePositionsAndPoints_pairwise_track alloc rows) ha hb with
      rfl | ⟨_, hp⟩ | ⟨hr, _⟩
    · exact absurd hv (lt_irrefl _)
    · exact hp
    · exact absurd hv (not_lt_of_le hr)
  · intro ha hb hv
    rcases pairwise_two_mems (calculatePositionsAndPoints_pairwise_field alloc rows) ha hb with
      rfl | ⟨_, hp⟩ | ⟨hr, _⟩
    · exact absurd hv (lt_irrefl _)
    · exact hp
    · exact absurd hv (not_lt_of_le hr)

/-- Stability of the sort: elements whose key values are all mutually related
by `r` (for instance, all equal) keep their original relative order, i.e.
filtering them out of the sorted list gives the same list as filtering them
out of the input. -/
theorem filter_insertionSort_of_related (r : RRow → RRow → Prop) [DecidableRel r]
    (p : RRow → Bool) (hp : ∀ a b : RRow, p a → p b → r a b) (l : List RRow) :
    (l.insertionSort r).filter p = l.filter p := by
  have hpair : (l.filter p).Pairwise r := by
    apply List.pairwise_of_forall_mem_list
    intro a ha b hb
    exact hp a b (List.of_mem_filter ha) (List.of_mem_filter hb)
  have h1 : List.Sublist (l.filter p) (l.insertionSort r) :=
    List.sublist_insertionSort hpair (List.filter_sublist l)
  have h2 : (l.filter p).filter p = l.filter p :=
    List.filter_eq_self.mpr fun a ha => List.of_mem_filter ha
  have h3 : List.Sublist (l.filter p) ((l.insertionSort r).filter p) := by
    have := h1.filter p
    rwa [h2] at this
  have h4 : List.Perm ((l.insertionSort r).filter p) (l.filter p) :=
    (List.perm_insertionSort r l).filter p
  exact (h3.eq_of_length h4.length_eq.symm).symm

/-- Filtering on a projection-determined predicate and mapping a
projection-determined function only depends on the list of projections. -/
theorem filter_map_congr_of_map_eq {α β γ : Type} (f : α → β) (q : β → Bool)
    (g : β → γ) :
    ∀ (L M : List α), L.map f = M.map f →
      (L.filter fun a => q (f a)).map (fun a => g (f a))
        = (M.filter fun a => q (f a)).map (fun a => g (f a)) := by
  intro L
  induction L with
  | nil => intro M h; cases M with
    | nil => rfl
    | cons m ms => exact absurd h (by simp)
  | cons a as ih =>
    intro M h
    cases M with
    | nil => exact absurd h (by simp)
    | cons m ms =>
      simp only [List.map_cons, List.cons.injEq] at h
      simp only [List.filter_cons, h.1, List.map_cons]
      rcases hq : q (f m) with _ | _ <;> simp [ih ms h.2, h.1]

/-- The assignment loop preserves the (result_id, result_value) projection of
each row, in order. -/
theorem assignPositions_map_proj (alloc : List (Nat × Nat)) :
    ∀ (n : Nat) (l : List RRow),
      (assignPositions alloc n l).map (fun r => (r.result_id, r.result_value))
        = l.map (fun r => (r.result_id, r.result_value)) := by
  intro n l
  induction l generalizing n with
  | nil => rfl
  | cons r rest ih => simp [assignPositions, ih]

/-- Claim C5: exact numeric ties receive distinct adjacent positions in
input/insertion order (stable sort, no shared rank).  First conjunct: for any
value `v`, the sub-sequence of rows measuring exactly `v` appears in the
recomputed output in its original input order (so ties are ordered by
insertion and, positions being 1..N without duplicates, get distinct
positions).  Second conjunct: rows placed between two tied rows are
themselves tied with them, so a tie block occupies adjacent positions.  Third
conjunct: Scenario B — Field distances 5.20, 6.10, 5.20 give the 6.10 entrant
position 1 and the tied 5.20 entrants positions 2 and 3 in input order, with
points 10, 6, 3 under the table {1:10, 2:6, 3:3, 4:1}. -/
theorem ties_get_distinct_adjacent_positions_in_input_order :
    (∀ (event_type : String) (alloc : List (Nat × Nat)) (rows : List RRow) (v : ℚ),
      ((calculatePositionsAndPoints event_type alloc rows).filter
          (fun r => decide (r.result_value = v))).map (fun r => r.result_id)
        = (rows.filter (fun r => decide (r.result_value = v))).map
            (fun r => r.result_id))
  ∧ (∀ (alloc : List (Nat × Nat)) (rows : List RRow) (u k w : RRow),
      (u ∈ calculatePositionsAndPoints "Track" alloc rows →
        k ∈ calculatePositionsAndPoints "Track" alloc rows →
        w ∈ calculatePositionsAndPoints "Track" alloc rows →
        u.result_value = w.result_value →
        u.position ≤ k.position → k.position ≤ w.position →
        k.result_value = u.result_value)
      ∧ (u ∈ calculatePositionsAndPoints "Field" alloc rows →
        k ∈ calculatePositionsAndPoints "Field" alloc rows →
        w ∈ calculatePositionsAndPoints "Field" alloc rows →
        u.result_value = w.result_value →
        u.position ≤ k.position → k.position ≤ w.position →
        k.result_value = u.result_value))
  ∧ calculatePositionsAndPoints "Field" individualAlloc
      [⟨1, "SA", 5, Gender.female, "Ignis", 5.20, 999, 0⟩,
       ⟨2, "SB", 5, Gender.male, "Terra", 6.10, 999, 0⟩,
       ⟨3, "SC", 5, Gender.other, "Ventus", 5.20, 999, 0⟩]
      = [⟨2, "SB", 5, Gender.male, "Terra", 6.10, 1, 10⟩,
         ⟨1, "SA", 5, Gender.female, "Ignis", 5.20, 2, 6⟩,
         ⟨3, "SC", 5, Gender.other, "Ventus", 5.20, 3, 3⟩] := by
  refine ⟨?_, ?_, ?_⟩
  · intro event_type alloc rows v
    unfold calculatePositionsAndPoints
    have key : ∀ (r : RRow → RRow → Prop) (_ : DecidableRel r),
        (∀ a b : RRow, a.result_value = v → b.result_value = v → r a b) →
        ((assignPositions alloc 1 (rows.insertionSort r)).filter
            (fun x => decide (x.result_value = v))).map (fun x => x.result_id)
          = (rows.filter (fun x => decide (x.result_value = v))).map
              (fun x => x.result_id) := by
      intro r instr hr
      have h1 := filter_map_congr_of_map_eq
        (fun x : RRow => (x.result_id, x.result_value))
        (fun pr => decide (pr.2 = v)) (fun pr => pr.1)
        (assignPositions alloc 1 (rows.insertionSort r)) (rows.insertionSort r)
        (assignPositions_map_proj alloc 1 (rows.insertionSort r))
      have h2 := filter_insertionSort_of_related r
        (fun x => decide (x.result_value = v))
        (fun a b ha hb => hr a b (of_decide_eq_true ha) (of_decide_eq_true hb)) rows
      simpa [h2] using h1
    split
    · exact key trackLe inferInstance fun a b ha hb => by
        unfold trackLe; rw [ha, hb]
    · exact key fieldLe inferInstance fun a b ha hb => by
        unfold fieldLe; rw [ha, hb]
  · intro alloc rows u k w
    constructor
    · intro hu hk hw huw huk hkw
      have hp := calculatePositionsAndPoints_pairwise_track alloc rows
      have h1 : u.result_value ≤ k.result_value := by
        rcases pairwise_two_mems hp hu hk with rfl | ⟨h, _⟩ | ⟨_, h⟩
        · exact le_refl _
        · exact h
        · omega
      have h2 : k.result_value ≤ w.result_value := by
        rcases pairwise_two_mems hp hk hw with rfl | ⟨h, _⟩ | ⟨_, h⟩
        · exact le_refl _
        · exact h
        · omega
      rw [← huw] at h2
      exact le_antisymm h2 h1
    · intro hu hk hw huw huk hkw
      have hp := calculatePositionsAndPoints_pairwise_field alloc rows
      have h1 : k.result_value ≤ u.result_value := by
        rcases pairwise_two_mems hp hu hk with rfl | ⟨h, _⟩ | ⟨_, h⟩
        · exact le_refl _
        · exact h
        · omega
      have h2 : w.result_value ≤ k.result_value := by
        rcases pairwise_two_mems hp hk hw with rfl | ⟨h, _⟩ | ⟨_, h⟩
        · exact le_refl _
        · exact h
        · omega
      rw [← huw] at h2
      exact le_antisymm h1 h2
  · unfold calculatePositionsAndPoints
    rw [if_neg (by decide : ¬("Field" = "Track"))]
    norm_num [List.insertionSort, List.orderedInsert, fieldLe, assignPositions,
      show lookupPoints individualAlloc 1 = 10 from rfl,
      show lookupPoints individualAlloc 2 = 6 from rfl,
      show lookupPoints individualAlloc 3 = 3 from rfl]

/-- `applyRanking` only ever touches the `position` and `points` fields. -/
theorem applyRanking_result_id (L : List RRow) (r : RRow) :
    (applyRanking L r).result_id = r.result_id := by
  unfold applyRanking
  cases L.find? (fun u => u.result_id == r.result_id) <;> rfl

/-- `applyRanking` preserves `event_id`. -/
theorem applyRanking_event_id (L : List RRow) (r : RRow) :
    (applyRanking L r).event_id = r.event_id := by
  unfold applyRanking
  cases L.find? (fun u => u.result_id == r.result_id) <;> rfl

/-- `applyRanking` preserves `result_value`. -/
theorem applyRanking_result_value (L : List RRow) (r : RRow) :
    (applyRanking L r).result_value = r.result_value := by
  unfold applyRanking
  cases L.find? (fun u => u.result_id == r.result_id) <;> rfl

/-- Re-assigning position and points wipes out a previous `applyRanking`. -/
theorem update_applyRanking (L : List RRow) (r : RRow) (n p : Nat) :
    ({ applyRanking L r with position := n, points := p } : RRow)
      = { r with position := n, points := p } := by
  unfold applyRanking
  cases L.find? (fun u => u.result_id == r.result_id) <;> rfl

/-- Applying the same ranked list twice is the same as applying it once. -/
theorem applyRanking_applyRanking (L : List RRow) (r : RRow) :
    applyRanking L (applyRanking L r) = applyRanking L r := by
  cases h : L.find? (fun u => u.result_id == r.result_id) with
  | none =>
    have h1 : applyRanking L r = r := by unfold applyRanking; rw [h]
    rw [h1]; exact h1
  | some u =>
    have h1 : applyRanking L r = { r with position := u.position, points := u.points } := by
      unfold applyRanking; rw [h]
    have h2 : applyRanking L { r with position := u.position, points := u.points } = { r with position := u.position, points := u.points } := by
      unfold applyRanking
      have h3 : L.find? (fun v => v.result_id == ({ r with position := u.position, points := u.points } : RRow).result_id) = some u := h
      rw [h3]
    rw [h1, h2]

/-- The position-assignment loop ignores a prior `applyRanking` pass. -/
theorem assignPositions_map_applyRanking (alloc : List (Nat × Nat)) (L : List RRow) :
    ∀ (n : Nat) (l : List RRow),
      assignPositions alloc n (l.map (applyRanking L)) = assignPositions alloc n l := by
  intro n l
  induction l generalizing n with
  | nil => rfl
  | cons r rest ih =>
    simp only [List.map_cons, assignPositions, ih, update_applyRanking]

/-- Ranking a group again after its rows received positions and points gives
the same ranked list: position/points updates do not affect the sort keys nor
the stable order. -/
theorem calculatePositionsAndPoints_map_applyRanking (event_type : String)
    (alloc : List (Nat × Nat)) (L : List RRow) (l : List RRow) :
    calculatePositionsAndPoints event_type alloc (l.map (applyRanking L))
      = calculatePositionsAndPoints event_type alloc l := by
  unfold calculatePositionsAndPoints
  split
  · rw [← List.map_insertionSort trackLe trackLe (applyRanking L) l
      (fun a _ b _ => by unfold trackLe
                         rw [applyRanking_result_value, applyRanking_result_value]),
      assignPositions_map_applyRanking]
  · rw [← List.map_insertionSort fieldLe fieldLe (applyRanking L) l
      (fun a _ b _ => by unfold fieldLe
                         rw [applyRanking_result_value, applyRanking_result_value]),
      assignPositions_map_applyRanking]

/-- Filtering an event's rows out of the updated table is the same as
updating the filtered rows: the row updates keep `event_id` intact. -/
theorem filter_map_update (ranked : List RRow) (eid : Nat) :
    ∀ st : List RRow,
      (st.map (fun r => if r.event_id == eid then applyRanking ranked r else r)).filter
          (fun r => r.event_id == eid)
        = (st.filter (fun r => r.event_id == eid)).map (applyRanking ranked) := by
  intro st
  induction st with
  | nil => rfl
  | cons r rest ih =>
    by_cases h : (r.event_id == eid) = true
    · simp only [List.map_cons, List.filter_cons, h, if_true, applyRanking_event_id, ih,
        List.map_cons]
    · simp only [List.map_cons, List.filter_cons, h, if_false, Bool.false_eq_true, ih]

/-- Mapping does not change emptiness. -/
theorem isEmpty_map {α β : Type} (l : List α) (f : α → β) :
    (l.map f).isEmpty = l.isEmpty := by
  cases l <;> rfl

/-- Claim C8: recomputation of a Competition Group is idempotent — running
`_calculate_positions_and_points` twice in a row over the stored results,
with no intervening mutation, leaves exactly the state produced by running it
once: every Measurement keeps the identical (position, points). -/
theorem recompute_group_idempotent (events : List Ev) (eid : Nat) (st : List RRow) :
    recomputeEvent events eid (recomputeEvent events eid st)
      = recomputeEvent events eid st := by
  unfold recomputeEvent
  cases hfind : events.find? (fun e => e.event_id == eid) with
  | none => rfl
  | some ev =>
    by_cases hemp : (st.filter (fun r => r.event_id == eid)).isEmpty = true
    · simp only [hemp, if_true]
    · simp only [hemp, Bool.false_eq_true, if_false]
      rw [filter_map_update, isEmpty_map]
      simp only [hemp, Bool.false_eq_true, if_false]
      rw [calculatePositionsAndPoints_map_applyRanking, List.map_map]
      apply List.map_congr_left
      intro r _
      by_cases h : (r.event_id == eid) = true
      · simp only [Function.comp_apply, h, if_true, applyRanking_event_id,
          applyRanking_applyRanking]
      · simp only [Function.comp_apply, h, Bool.false_eq_true, if_false]

/-- `applyRanking` preserves `curtin_id`. -/
theorem applyRanking_curtin_id (L : List RRow) (r : RRow) :
    (applyRanking L r).curtin_id = r.curtin_id := by
  unfold applyRanking
  cases L.find? (fun u => u.result_id == r.result_id) <;> rfl

/-- Recomputation rewrites positions and points but never creates, deletes or
re-keys rows, so the one-Measurement-per-(athlete, event) invariant survives
it. -/
theorem recomputeEvent_preserves_unique (events : List Ev) (eid : Nat)
    (st : List RRow) (h : uniquePerAthleteEvent st) :
    uniquePerAthleteEvent (recomputeEvent events eid st) := by
  unfold recomputeEvent
  cases events.find? (fun e => e.event_id == eid) with
  | none => exact h
  | some ev =>
    by_cases hemp : (st.filter (fun r => r.event_id == eid)).isEmpty = true
    · simp only [hemp, if_true]
      exact h
    · simp only [hemp, Bool.false_eq_true, if_false]
      unfold uniquePerAthleteEvent at h ⊢
      rw [List.pairwise_map]
      refine h.imp ?_
      intro a b hab hcon
      apply hab
      have ha : ∀ (R : List RRow) (r : RRow),
          ((if r.event_id == eid then applyRanking R r else r)).curtin_id = r.curtin_id ∧
          ((if r.event_id == eid then applyRanking R r else r)).event_id = r.event_id := by
        intro R r
        split
        · exact ⟨applyRanking_curtin_id R r, applyRanking_event_id R r⟩
        · exact ⟨rfl, rfl⟩
      rcases hcon with ⟨hc, he⟩
      rw [(ha _ a).1, (ha _ b).1] at hc
      rw [(ha _ a).2, (ha _ b).2] at he
      exact ⟨hc, he⟩

/-- Claim C9: `add_result` fails exactly when the athlete already has a
Measurement for the event; on that failure the stored state is unchanged
(nothing inserted, nothing recomputed), and in every case the invariant of at
most one Measurement per (athlete, event) is preserved. -/
theorem submit_result_duplicate_semantics (events : List Ev) (st : List RRow)
    (curtin : String) (eid : Nat) (v : ℚ) (g : Gender) (house : String)
    (newRid : Nat) :
    ((add_result events st curtin eid v g house newRid).fst = false ↔
      ∃ r ∈ st, r.curtin_id = curtin ∧ r.event_id = eid)
    ∧ ((add_result events st curtin eid v g house newRid).fst = false →
        (add_result events st curtin eid v g house newRid).snd = st)
    ∧ (uniquePerAthleteEvent st →
        uniquePerAthleteEvent (add_result events st curtin eid v g house newRid).snd) := by
  unfold add_result addResultWithRecalc
  by_cases hdup : st.any (fun r => r.curtin_id == curtin && r.event_id == eid) = true
  · simp only [hdup, if_true]
    simp only [List.any_eq_true, Bool.and_eq_true, beq_iff_eq] at hdup
    exact ⟨⟨fun _ => hdup, fun _ => trivial⟩, fun _ => trivial, fun h => h⟩
  · simp only [hdup, Bool.false_eq_true, if_false, if_true]
    have hno : ∀ r ∈ st, ¬(r.curtin_id = curtin ∧ r.event_id = eid) := by
      intro r hr hcon
      apply hdup
      simp only [List.any_eq_true, Bool.and_eq_true, beq_iff_eq]
      exact ⟨r, hr, hcon⟩
    refine ⟨⟨fun hfalse => absurd hfalse (by simp), fun hex => ?_⟩,
      fun hfalse => absurd hfalse (by simp), fun h => ?_⟩
    · rcases hex with ⟨r, hr, hc⟩
      exact absurd hc (hno r hr)
    · apply recomputeEvent_preserves_unique
      unfold uniquePerAthleteEvent at h ⊢
      rw [List.pairwise_append]
      refine ⟨h, List.pairwise_singleton _ _, ?_⟩
      intro a ha b hb
      simp only [List.mem_singleton] at hb
      subst hb
      exact fun hcon => hno a ha ⟨hcon.1, hcon.2⟩

/-- Claim C10: `add_result` commits the new Measurement with the sentinel
values `position = 999`, `points = 0` before any recomputation runs; when the
recomputation step fails after a successful insert, the row stays committed
with exactly those sentinel values, and when it succeeds the final state is
the recomputation of the state containing the committed row. -/
theorem sentinel_insert_then_recompute (events : List Ev) (st : List RRow)
    (curtin : String) (eid : Nat) (v : ℚ) (g : Gender) (house : String)
    (newRid : Nat)
    (h : st.any (fun r => r.curtin_id == curtin && r.event_id == eid) = false) :
    (addResultWithRecalc events st curtin eid v g house newRid false).fst = true
    ∧ (addResultWithRecalc events st curtin eid v g house newRid false).snd
        = st ++ [⟨newRid, curtin, eid, g, house, v, 999, 0⟩]
    ∧ (⟨newRid, curtin, eid, g, house, v, 999, 0⟩ : RRow).position = 999
    ∧ (⟨newRid, curtin, eid, g, house, v, 999, 0⟩ : RRow).points = 0
    ∧ (addResultWithRecalc events st curtin eid v g house newRid true).snd
        = recomputeEvent events eid
            (st ++ [⟨newRid, curtin, eid, g, house, v, 999, 0⟩]) := by
  unfold addResultWithRecalc
  simp only [h, Bool.false_eq_true, if_false, if_true]
  exact ⟨trivial, trivial, trivial, trivial, trivial⟩

/-- Claim C1 (divergence of the code): `_calculate_positions_and_points` does
not partition an individual event's Measurements by gender — a male and a
female entrant with the same time in the same event are ranked in one mixed
Competition Group and receive positions 1 and 2, not two independent first
places. -/
theorem equal_times_mixed_group_positions :
    calculatePositionsAndPoints ("Track") individualAlloc
      [⟨1, "M1", 1, Gender.male, "Ignis", 12, 999, 0⟩,
       ⟨2, "F1", 1, Gender.female, "Terra", 12, 999, 0⟩]
      = [⟨1, "M1", 1, Gender.male, "Ignis", 12, 1, 10⟩,
         ⟨2, "F1", 1, Gender.female, "Terra", 12, 2, 6⟩] := by
  decide

/-- Claim C3 (divergence of the code): the colon branch of
`parse_time_input` checks `minutes < 0 or seconds < 0 or seconds >= 60` but
never that the total is positive, so `"0:00"` parses to the canonical
measurement 0 — while the plain-seconds branch rejects the equivalent
`"0"` (`if seconds <= 0: raise`).  Zero is therefore not always rejected,
against the spec's `InvalidMeasurementFormat` contract. -/
theorem parse_time_input_accepts_zero_colon :
    parse_time_input ("0:00".data) = some 0
      ∧ parse_time_input ("0".data) = none := by
  constructor
  · simp +decide [parse_time_input, stripChars, splitColon, parseFloatChars,
      parseUnsignedFloat, digitsToNat]
  · simp +decide [parse_time_input, stripChars, splitColon, parseFloatChars,
      parseUnsignedFloat, digitsToNat]

/-- `applyRelayRanking` preserves `event_id`. -/
theorem applyRelayRanking_event_id (L : List TRow) (t : TRow) :
    (applyRelayRanking L t).event_id = t.event_id := by
  unfold applyRelayRanking
  cases L.find? (fun u => u.team_id == t.team_id) <;> rfl

/-- `applyRelayRanking` preserves `team_id`. -/
theorem applyRelayRanking_team_id (L : List TRow) (t : TRow) :
    (applyRelayRanking L t).team_id = t.team_id := by
  unfold applyRelayRanking
  cases L.find? (fun u => u.team_id == t.team_id) <;> rfl

/-- Every ranked relay row keeps the `team_id` and `event_id` of an input
row. -/
theorem assignRelayPositions_mem (alloc : List (Nat × Nat)) :
    ∀ (n : Nat) (l : List TRow) (b : TRow), b ∈ assignRelayPositions alloc n l →
      ∃ c ∈ l, b.team_id = c.team_id ∧ b.event_id = c.event_id := by
  intro n l
  induction l generalizing n with
  | nil => intro b hb; cases hb
  | cons t rest ih =>
    intro b hb
    rcases List.mem_cons.mp hb with h | h
    · exact ⟨t, List.mem_cons_self t rest, by simp [h]⟩
    · rcases ih (n + 1) b h with ⟨c, hc, hv⟩
      exact ⟨c, List.mem_cons_of_mem t hc, hv⟩

/-- A keyed filter sees through a map that fixes the keyed rows and preserves
the key elsewhere. -/
theorem filter_map_fix {α : Type} (key : α → Nat) (eid : Nat) (g : α → α)
    (hkey : ∀ a, key (g a) = key a) :
    ∀ l : List α, (∀ a ∈ l, (key a == eid) = true → g a = a) →
      (l.map g).filter (fun a => key a == eid) = l.filter (fun a => key a == eid) := by
  intro l
  induction l with
  | nil => intro _; rfl
  | cons a as ih =>
    intro hfix
    have htail := ih fun x hx => hfix x (List.mem_cons_of_mem a hx)
    by_cases h : (key a == eid) = true
    · simp only [List.map_cons, List.filter_cons, hkey, h, if_true, htail,
        hfix a (List.mem_cons_self a as) h]
    · simp only [List.map_cons, List.filter_cons, hkey, h, Bool.false_eq_true,
        if_false, htail]

/-- A keyed filter commutes with a key-preserving map. -/
theorem filter_map_unconditional {α : Type} (key : α → Nat) (eid : Nat) (f : α → α)
    (hkey : ∀ a, key (f a) = key a) :
    ∀ l : List α,
      (l.map f).filter (fun a => key a == eid)
        = (l.filter (fun a => key a == eid)).map f := by
  intro l
  induction l with
  | nil => rfl
  | cons a as ih =>
    by_cases h : (key a == eid) = true
    · simp only [List.map_cons, List.filter_cons, hkey, h, if_true, ih]
    · simp only [List.map_cons, List.filter_cons, hkey, h, Bool.false_eq_true,
        if_false, ih]

/-- A keyed filter sees through a map that updates exactly the keyed rows. -/
theorem filter_map_cond {α : Type} (key : α → Nat) (eid : Nat) (f : α → α)
    (hkey : ∀ a, key (f a) = key a) :
    ∀ l : List α,
      (l.map fun a => if key a == eid then f a else a).filter (fun a => key a == eid)
        = (l.filter (fun a => key a == eid)).map f := by
  intro l
  induction l with
  | nil => rfl
  | cons a as ih =>
    by_cases h : (key a == eid) = true
    · simp only [List.map_cons, List.filter_cons, h, if_true, hkey, ih]
    · simp only [List.map_cons, List.filter_cons, h, Bool.false_eq_true, if_false, ih]

/-- Conjoined boolean filters split into successive filters. -/
theorem filter_and_split {α : Type} (A B : α → Bool) (l : List α) :
    l.filter (fun x => A x && B x) = (l.filter A).filter B := by
  rw [List.filter_filter]
  apply List.filter_congr
  intro x _
  exact Bool.and_comm (A x) (B x)

/-- Recomputing a relay event does not touch another event's relay rows
(primary keys of `relay_teams` assumed distinct). -/
theorem recomputeRelayEvent_other (ev2 : Ev) (eid : Nat) (hne : ev2.event_id ≠ eid)
    (relays : List TRow)
    (hdist : relays.Pairwise fun a b => a.team_id ≠ b.team_id) :
    (recomputeRelayEvent ev2 relays).filter (fun t => t.event_id == eid)
      = relays.filter (fun t => t.event_id == eid) := by
  unfold recomputeRelayEvent
  by_cases hemp : ((relays.filter fun t => t.event_id == ev2.event_id).isEmpty) = true
  · simp only [hemp, if_true]
  · simp only [hemp, Bool.false_eq_true, if_false]
    apply filter_map_fix TRow.event_id eid _ (applyRelayRanking_event_id _) relays
    intro t ht hkey
    have hfind : (assignRelayPositions ev2.point_allocation 1
        (((relays.filter fun x => x.event_id == ev2.event_id).filter
          relayHasResult).insertionSort relayLe)).find?
        (fun u => u.team_id == t.team_id) = none := by
      rw [List.find?_eq_none]
      intro u hu hut
      rcases assignRelayPositions_mem ev2.point_allocation 1 _ u hu with ⟨c, hc, hcid, _⟩
      have hc2 : c ∈ relays.filter fun x => x.event_id == ev2.event_id :=
        List.mem_of_mem_filter ((List.mem_insertionSort relayLe).mp hc)
      have hcev : c.event_id = ev2.event_id := by
        have := List.of_mem_filter hc2
        simpa using this
      have hcmem : c ∈ relays := List.mem_of_mem_filter hc2
      have htev : t.event_id = eid := by simpa using hkey
      have hct : c ≠ t := fun hcon => hne (by rw [← hcev, hcon, htev])
      have hut2 : u.team_id = t.team_id := by simpa using hut
      rcases pairwise_two_mems hdist hcmem ht with
        hcon | hne2 | hne2
      · exact hct hcon
      · exact hne2 (by rw [← hcid, hut2])
      · exact hne2 (by rw [← hcid, hut2])
    unfold applyRelayRanking
    rw [hfind]

/-- Recomputing an individual event on the gender-split path does not touch
another event's result rows. -/
theorem recomputeEventGenderSplit_other (ev2 : Ev) (eid : Nat)
    (hne : ev2.event_id ≠ eid) (results : List RRow) :
    (recomputeEventGenderSplit ev2 results).filter (fun r => r.event_id == eid)
      = results.filter (fun r => r.event_id == eid) := by
  unfold recomputeEventGenderSplit
  apply filter_map_fix RRow.event_id eid _ ?_ results ?_
  · intro a
    split
    · exact applyRanking_event_id _ a
    · rfl
  · intro a _ hkey
    have haev : a.event_id = eid := by simpa using hkey
    have : (a.event_id == ev2.event_id) = false := by
      rw [beq_eq_false_iff_ne]
      rw [haev]
      exact fun hcon => hne hcon.symm
    rw [this]
    simp

/-- The relay recompute of an event is determined by that event's relay
rows. -/
theorem recomputeRelayEvent_congr (ev : Ev) (r1 r2 : List TRow)
    (h : r1.filter (fun t => t.event_id == ev.event_id)
       = r2.filter (fun t => t.event_id == ev.event_id)) :
    (recomputeRelayEvent ev r1).filter (fun t => t.event_id == ev.event_id)
      = (recomputeRelayEvent ev r2).filter (fun t => t.event_id == ev.event_id) := by
  unfold recomputeRelayEvent
  by_cases hemp : ((r2.filter fun t => t.event_id == ev.event_id).isEmpty) = true
  · have hemp1 : ((r1.filter fun t => t.event_id == ev.event_id).isEmpty) = true := by
      rw [h]; exact hemp
    simp only [hemp, hemp1, if_true]
    exact h
  · have hemp1 : ¬((r1.filter fun t => t.event_id == ev.event_id).isEmpty) = true := by
      rw [h]; exact hemp
    simp only [hemp, hemp1, Bool.false_eq_true, if_false]
    rw [filter_map_unconditional TRow.event_id ev.event_id _
        (applyRelayRanking_event_id _) r1,
      filter_map_unconditional TRow.event_id ev.event_id _
        (applyRelayRanking_event_id _) r2,
      h]

/-- The gender-split recompute of an event is determined by that event's
result rows. -/
theorem recomputeEventGenderSplit_congr (ev : Ev) (res1 res2 : List RRow)
    (h : res1.filter (fun r => r.event_id == ev.event_id)
       = res2.filter (fun r => r.event_id == ev.event_id)) :
    (recomputeEventGenderSplit ev res1).filter (fun r => r.event_id == ev.event_id)
      = (recomputeEventGenderSplit ev res2).filter
          (fun r => r.event_id == ev.event_id) := by
  unfold recomputeEventGenderSplit
  rw [filter_map_cond RRow.event_id ev.event_id _
      (fun a => applyRanking_event_id _ a) res1,
    filter_map_cond RRow.event_id ev.event_id _
      (fun a => applyRanking_event_id _ a) res2]
  have hsplit : ∀ (res : List RRow) (g0 : Gender),
      res.filter (fun x => x.event_id == ev.event_id && decide (x.gender = g0))
        = (res.filter fun x => x.event_id == ev.event_id).filter
            (fun x => decide (x.gender = g0)) := by
    intro res g0
    exact filter_and_split _ _ res
  simp only [hsplit]
  rw [h]

/-- Dispatching one event leaves every other event's projection of the store
unchanged (relay primary keys assumed distinct). -/
theorem dispatchEvent_other (e2 : Ev) (eid : Nat) (hne : e2.event_id ≠ eid)
    (s : DBState)
    (hdist : s.relays.Pairwise fun a b => a.team_id ≠ b.team_id) :
    projEvent eid (dispatchEvent e2 s) = projEvent eid s := by
  unfold dispatchEvent projEvent
  split
  · rw [recomputeRelayEvent_other e2 eid hne s.relays hdist]
  · rw [recomputeEventGenderSplit_other e2 eid hne s.results]

/-- Dispatching an event is determined by that event's projection of the
store. -/
theorem dispatchEvent_congr (ev : Ev) (s1 s2 : DBState)
    (h : projEvent ev.event_id s1 = projEvent ev.event_id s2) :
    projEvent ev.event_id (dispatchEvent ev s1)
      = projEvent ev.event_id (dispatchEvent ev s2) := by
  unfold projEvent at h
  have h1 : s1.results.filter (fun r => r.event_id == ev.event_id)
      = s2.results.filter (fun r => r.event_id == ev.event_id) :=
    congrArg Prod.fst h
  have h2 : s1.relays.filter (fun t => t.event_id == ev.event_id)
      = s2.relays.filter (fun t => t.event_id == ev.event_id) :=
    congrArg Prod.snd h
  unfold dispatchEvent projEvent
  split
  · rw [h1, recomputeRelayEvent_congr ev s1.relays s2.relays h2]
  · rw [h2, recomputeEventGenderSplit_congr ev s1.results s2.results h1]

/-- Dispatching keeps relay `team_id`s distinct. -/
theorem dispatchEvent_teamIds (e2 : Ev) (s : DBState)
    (hdist : s.relays.Pairwise fun a b => a.team_id ≠ b.team_id) :
    (dispatchEvent e2 s).relays.Pairwise fun a b => a.team_id ≠ b.team_id := by
  unfold dispatchEvent
  split
  · show (recomputeRelayEvent e2 s.relays).Pairwise _
    unfold recomputeRelayEvent
    by_cases hemp : ((s.relays.filter fun t => t.event_id == e2.event_id).isEmpty) = true
    · simp only [hemp, if_true]
      exact hdist
    · simp only [hemp, Bool.false_eq_true, if_false]
      rw [List.pairwise_map]
      refine hdist.imp ?_
      intro a b hab
      rw [applyRelayRanking_team_id, applyRelayRanking_team_id]
      exact hab
  · exact hdist

/-- Folding the dispatch over events none of which is the observed one leaves
the observed event's projection unchanged. -/
theorem recomputeAll_fixed (eid : Nat) :
    ∀ (rest : List Ev) (s : DBState), (∀ b ∈ rest, b.event_id ≠ eid) →
      s.relays.Pairwise (fun a b => a.team_id ≠ b.team_id) →
      projEvent eid (recomputeAll rest s) = projEvent eid s := by
  intro rest
  induction rest with
  | nil => intro s _ _; rfl
  | cons e tail ih =>
    intro s hb hdist
    have hstep : recomputeAll (e :: tail) s = recomputeAll tail (dispatchEvent e s) := rfl
    rw [hstep,
      ih (dispatchEvent e s) (fun b hbm => hb b (List.mem_cons_of_mem e hbm))
        (dispatchEvent_teamIds e s hdist),
      dispatchEvent_other e eid (hb e (List.mem_cons_self e tail)) s hdist]

/-- Claim C2: `recalculate_all_points` iterates over every event and
dispatches each one to the relay or individual/gender-split recomputation
path according to that event's configuration, so after it runs every event's
stored positions and points are exactly those of its own recomputation
(hypotheses: event ids are distinct and relay team ids are distinct — the
tables' primary keys). -/
theorem recalculate_all_points_recomputes_every_event :
    ∀ (events : List Ev) (st : DBState) (ev : Ev), ev ∈ events →
      events.Pairwise (fun a b => a.event_id ≠ b.event_id) →
      st.relays.Pairwise (fun a b => a.team_id ≠ b.team_id) →
      projEvent ev.event_id (recomputeAll events st)
        = projEvent ev.event_id (dispatchEvent ev st) := by
  intro events
  induction events with
  | nil => intro st ev h; cases h
  | cons e rest ih =>
    intro st ev hmem hdist hteams
    rcases List.pairwise_cons.mp hdist with ⟨hhead, htail⟩
    have hstep : recomputeAll (e :: rest) st = recomputeAll rest (dispatchEvent e st) :=
      rfl
    rcases List.mem_cons.mp hmem with rfl | hmem2
    · rw [hstep]
      exact recomputeAll_fixed ev.event_id rest (dispatchEvent ev st)
        (fun b hb => (hhead b hb).symm) (dispatchEvent_teamIds ev st hteams)
    · rw [hstep,
        ih (dispatchEvent e st) ev hmem2 htail (dispatchEvent_teamIds e st hteams)]
      apply dispatchEvent_congr
      exact dispatchEvent_other e ev.event_id (hhead ev hmem2) st hteams

/-- The digit characters. -/
theorem digitChar_toNat (d : Nat) (h : d < 10) : (Nat.digitChar d).toNat = 48 + d := by
  interval_cases d <;> rfl

/-- Digit characters are digits. -/
theorem digitChar_isDigit (d : Nat) (h : d < 10) : (Nat.digitChar d).isDigit = true := by
  interval_cases d <;> decide

/-- A digit character differs from any non-digit character. -/
theorem isDigit_ne (c x : Char) (hx : x.isDigit = false) (hc : c.isDigit = true) :
    c ≠ x := by
  intro hcon
  rw [hcon, hx] at hc
  cases hc

/-- A digit character is not whitespace. -/
theorem isDigit_not_whitespace (c : Char) (hc : c.isDigit = true) :
    c.isWhitespace = false := by
  unfold Char.isDigit at hc
  rw [Bool.and_eq_true, decide_eq_true_eq, decide_eq_true_eq] at hc
  unfold Char.isWhitespace
  simp only [Bool.or_eq_false_iff, decide_eq_false_iff_not]
  refine ⟨⟨⟨?_, ?_⟩, ?_⟩, ?_⟩ <;> intro h <;> subst h <;> exact absurd hc (by decide)

/-- Every character of `renderNat n` is a digit. -/
theorem renderNat_digits (n : Nat) : ∀ c ∈ renderNat n, c.isDigit = true := by
  induction n using Nat.strong_induction_on with
  | _ n ih =>
    rw [renderNat]
    split
    · intro c hc
      rw [List.mem_singleton] at hc
      subst hc
      exact digitChar_isDigit n (by omega)
    · intro c hc
      rcases List.mem_append.mp hc with h | h
      · exact ih (n / 10) (Nat.div_lt_self (by omega) (by omega)) c h
      · rw [List.mem_singleton] at h
        subst h
        exact digitChar_isDigit (n % 10) (Nat.mod_lt n (by omega))

/-- `renderNat` never produces the empty string. -/
theorem renderNat_ne_nil (n : Nat) : renderNat n ≠ [] := by
  rw [renderNat]
  split
  · exact fun h => List.cons_ne_nil _ _ h
  · exact fun h => absurd (List.append_eq_nil.mp h).2 (List.cons_ne_nil _ _)

/-- The digit accumulator over an arbitrary start value. -/
theorem foldl_digits (l : List Char) : ∀ a : Nat,
    l.foldl (fun n c => 10 * n + (c.toNat - 48)) a
      = a * 10 ^ l.length + digitsToNat l := by
  induction l with
  | nil => intro a; simp [digitsToNat]
  | cons c t ih =>
    intro a
    show List.foldl _ (10 * a + (c.toNat - 48)) t = _
    rw [ih (10 * a + (c.toNat - 48))]
    have h2 : digitsToNat (c :: t) = (c.toNat - 48) * 10 ^ t.length + digitsToNat t := by
      show List.foldl _ (10 * 0 + (c.toNat - 48)) t = _
      rw [ih (10 * 0 + (c.toNat - 48))]
      ring
    rw [List.length_cons, h2]
    ring

/-- Appending a digit multiplies by ten and adds it. -/
theorem digitsToNat_append_singleton (l : List Char) (c : Char) :
    digitsToNat (l ++ [c]) = 10 * digitsToNat l + (c.toNat - 48) := by
  unfold digitsToNat
  rw [List.foldl_append]
  rfl

/-- Parsing inverts rendering. -/
theorem digitsToNat_renderNat (n : Nat) : digitsToNat (renderNat n) = n := by
  induction n using Nat.strong_induction_on with
  | _ n ih =>
    rw [renderNat]
    split
    · show digitsToNat [Nat.digitChar n] = n
      unfold digitsToNat
      show 10 * 0 + ((Nat.digitChar n).toNat - 48) = n
      rw [digitChar_toNat n (by omega)]
      omega
    · rw [digitsToNat_append_singleton,
        ih (n / 10) (Nat.div_lt_self (by omega) (by omega)),
        digitChar_toNat (n % 10) (Nat.mod_lt n (by omega))]
      omega

/-- Leading zeros do not change the parsed value. -/
theorem digitsToNat_replicate_zero (k : Nat) (l : List Char) :
    digitsToNat (List.replicate k '0' ++ l) = digitsToNat l := by
  induction k with
  | zero => rfl
  | succ m ih =>
    show digitsToNat ('0' :: (List.replicate m '0' ++ l)) = _
    unfold digitsToNat at ih ⊢
    exact ih

/-- The two forced decimal digits parse back. -/
theorem digitsToNat_twoDigits (b : Nat) (h : b < 100) :
    digitsToNat (twoDigits b) = b := by
  unfold twoDigits digitsToNat
  show 10 * (10 * 0 + ((Nat.digitChar (b / 10)).toNat - 48))
      + ((Nat.digitChar (b % 10)).toNat - 48) = b
  rw [digitChar_toNat (b / 10) (by omega), digitChar_toNat (b % 10) (by omega)]
  omega

/-- `twoDigits` produces digits. -/
theorem twoDigits_digits (b : Nat) (h : b < 100) :
    ∀ c ∈ twoDigits b, c.isDigit = true := by
  intro c hc
  unfold twoDigits at hc
  rcases List.mem_cons.mp hc with h2 | h2
  · subst h2; exact digitChar_isDigit (b / 10) (by omega)
  · rw [List.mem_singleton] at h2
    subst h2
    exact digitChar_isDigit (b % 10) (by omega)

/-- `takeWhile` swallows a prefix on which the predicate holds. -/
theorem takeWhile_append_all (p : Char → Bool) :
    ∀ (l1 l2 : List Char), (∀ c ∈ l1, p c = true) →
      (l1 ++ l2).takeWhile p = l1 ++ l2.takeWhile p := by
  intro l1
  induction l1 with
  | nil => intro l2 _; rfl
  | cons c t ih =>
    intro l2 h
    show List.takeWhile p (c :: (t ++ l2)) = _
    rw [List.takeWhile_cons, h c (List.mem_cons_self c t), if_pos rfl,
      ih l2 fun x hx => h x (List.mem_cons_of_mem c hx)]
    rfl

/-- `dropWhile` skips a prefix on which the predicate holds. -/
theorem dropWhile_append_all (p : Char → Bool) :
    ∀ (l1 l2 : List Char), (∀ c ∈ l1, p c = true) →
      (l1 ++ l2).dropWhile p = l2.dropWhile p := by
  intro l1
  induction l1 with
  | nil => intro l2 _; rfl
  | cons c t ih =>
    intro l2 h
    show List.dropWhile p (c :: (t ++ l2)) = _
    rw [List.dropWhile_cons, h c (List.mem_cons_self c t), if_pos rfl,
      ih l2 fun x hx => h x (List.mem_cons_of_mem c hx)]

/-- `takeWhile` keeps a list on which the predicate holds everywhere. -/
theorem takeWhile_all (p : Char → Bool) (l : List Char) (h : ∀ c ∈ l, p c = true) :
    l.takeWhile p = l := by
  have := takeWhile_append_all p l [] h
  simpa using this

/-- `dropWhile` exhausts a list on which the predicate holds everywhere. -/
theorem dropWhile_all (p : Char → Bool) (l : List Char) (h : ∀ c ∈ l, p c = true) :
    l.dropWhile p = [] := by
  have := dropWhile_append_all p l [] h
  simpa using this

/-- `dropWhile` keeps a list on which the predicate fails everywhere. -/
theorem dropWhile_none (p : Char → Bool) (l : List Char)
    (h : ∀ c ∈ l, p c = false) : l.dropWhile p = l := by
  cases l with
  | nil => rfl
  | cons c t =>
    rw [List.dropWhile_cons, h c (List.mem_cons_self c t)]
    simp

/-- Stripping a string without surrounding whitespace is the identity. -/
theorem stripChars_eq_self (l : List Char) (h : ∀ c ∈ l, c.isWhitespace = false) :
    stripChars l = l := by
  unfold stripChars
  rw [dropWhile_none _ l h,
    dropWhile_none _ l.reverse fun c hc => h c (List.mem_reverse.mp hc),
    List.reverse_reverse]

/-- A list without colons does not contain a colon. -/
theorem contains_colon_eq_false (l : List Char) (h : ∀ c ∈ l, c ≠ ':') :
    l.contains ':' = false := by
  simp only [List.contains_eq_any_beq, List.any_eq_false]
  intro c hc
  exact fun hcon => h c hc (eq_of_beq hcon).symm

/-- A list that holds a colon contains it. -/
theorem contains_colon_of_mem (l : List Char) (h : ':' ∈ l) :
    l.contains ':' = true := by
  simp only [List.contains_eq_any_beq, List.any_eq_true]
  exact ⟨':', h, by simp⟩

/-- `splitColon` on a colon-free list. -/
theorem splitColon_no_colon (l : List Char) (h : ∀ c ∈ l, c ≠ ':') :
    splitColon l = [l] := by
  induction l with
  | nil => rfl
  | cons c t ih =>
    rw [splitColon, if_neg (h c (List.mem_cons_self c t)),
      ih fun x hx => h x (List.mem_cons_of_mem c hx)]
    rfl

/-- `splitColon` cuts at the first colon. -/
theorem splitColon_append (l2 : List Char) :
    ∀ l1 : List Char, (∀ c ∈ l1, c ≠ ':') →
      splitColon (l1 ++ ':' :: l2) = l1 :: splitColon l2 := by
  intro l1
  induction l1 with
  | nil =>
    intro _
    show splitColon (':' :: l2) = [] :: splitColon l2
    rw [splitColon, if_pos rfl]
  | cons c t ih =>
    intro h
    show splitColon (c :: (t ++ ':' :: l2)) = _
    rw [splitColon, if_neg (h c (List.mem_cons_self c t)),
      ih fun x hx => h x (List.mem_cons_of_mem c hx)]
    rfl

/-- `parseUnsignedFloat` on a pure digit string. -/
theorem parseUnsignedFloat_digits (l : List Char) (hne : l ≠ [])
    (hdig : ∀ c ∈ l, c.isDigit = true) :
    parseUnsignedFloat l = some (digitsToNat l : ℚ) := by
  unfold parseUnsignedFloat
  rw [takeWhile_all Char.isDigit l hdig, dropWhile_all Char.isDigit l hdig]
  show (if l.isEmpty = true then (none : Option ℚ) else some (digitsToNat l : ℚ))
      = some (digitsToNat l : ℚ)
  rw [if_neg]
  rw [List.isEmpty_eq_true]
  exact hne

/-- `parseUnsignedFloat` on an `digits.digits` string. -/
theorem parseUnsignedFloat_int_frac (ip frac : List Char) (hne : ip ≠ [])
    (hip : ∀ c ∈ ip, c.isDigit = true) (hfrac : ∀ c ∈ frac, c.isDigit = true) :
    parseUnsignedFloat (ip ++ '.' :: frac)
      = some ((digitsToNat ip : ℚ) + (digitsToNat frac : ℚ) / (10 : ℚ) ^ frac.length) := by
  unfold parseUnsignedFloat
  rw [takeWhile_append_all Char.isDigit ip ('.' :: frac) hip,
    dropWhile_append_all Char.isDigit ip ('.' :: frac) hip]
  have h1 : List.takeWhile Char.isDigit ('.' :: frac) = [] := by
    rw [List.takeWhile_cons, if_neg (by decide)]
  have h2 : List.dropWhile Char.isDigit ('.' :: frac) = '.' :: frac := by
    rw [List.dropWhile_cons, if_neg (by decide)]
  rw [h1, h2, List.append_nil]
  show (if frac.all Char.isDigit && !(ip.isEmpty && frac.isEmpty) then _ else _) = _
  rw [List.all_eq_true.mpr hfrac]
  have h3 : ip.isEmpty = false := by
    rw [List.isEmpty_eq_false]
    exact hne
  rw [h3]
  rfl

/-- `parseUnsignedFloat` rejects a fractional part carrying a stray non-digit
at its end (the displayed unit letter). -/
theorem parseUnsignedFloat_trailing_unit (ip frac : List Char) (u : Char)
    (hip : ∀ c ∈ ip, c.isDigit = true) (hu : u.isDigit = false) :
    parseUnsignedFloat (ip ++ '.' :: (frac ++ [u])) = none := by
  unfold parseUnsignedFloat
  rw [takeWhile_append_all Char.isDigit ip ('.' :: (frac ++ [u])) hip,
    dropWhile_append_all Char.isDigit ip ('.' :: (frac ++ [u])) hip]
  have h2 : List.dropWhile Char.isDigit ('.' :: (frac ++ [u])) = '.' :: (frac ++ [u]) := by
    rw [List.dropWhile_cons, if_neg (by decide)]
  rw [h2]
  show (if (frac ++ [u]).all Char.isDigit && !(_ && _) then _ else _) = _
  have h3 : (frac ++ [u]).all Char.isDigit = false := by
    rw [List.all_append]
    have : [u].all Char.isDigit = false := by
      show (u.isDigit && true) = false
      rw [hu]
      rfl
    rw [this]
    exact Bool.and_false _
  rw [h3]
  rfl

/-- `parseFloatChars` defers to the unsigned parse when the first character is
a digit. -/
theorem parseFloatChars_of_digit (c : Char) (t : List Char) (hc : c.isDigit = true) :
    parseFloatChars (c :: t) = parseUnsignedFloat (c :: t) := by
  show (if c = '-' then (parseUnsignedFloat t).map (fun q => -q)
      else if c = '+' then parseUnsignedFloat t else parseUnsignedFloat (c :: t))
    = parseUnsignedFloat (c :: t)
  rw [if_neg (isDigit_ne c '-' (by decide) hc), if_neg (isDigit_ne c '+' (by decide) hc)]

/-- Rounding an integer changes nothing. -/
theorem roundHalfEven_intCast (k : ℤ) : roundHalfEven ((k : ℚ)) = k := by
  unfold roundHalfEven
  rw [Int.floor_intCast]
  norm_num

/-- `%.2f` of an exact two-decimal value prints its digits. -/
theorem fmt2_div100 (n : Nat) :
    fmt2 ((n : ℚ) / 100) = renderNat (n / 100) ++ '.' :: twoDigits (n % 100) := by
  unfold fmt2
  have h1 : 100 * ((n : ℚ) / 100) = (((n : ℤ) : ℚ)) := by
    push_cast
    field_simp
  rw [h1, roundHalfEven_intCast, Int.toNat_natCast]

/-- Sub-minute Track values format as digits, a dot, two digits and the unit
letter. -/
theorem format_track_sub60 (n : Nat) (h2 : n < 6000) :
    format_time_for_display ((n : ℚ) / 100)
      = (renderNat (n / 100) ++ '.' :: twoDigits (n % 100)) ++ ['s'] := by
  unfold format_time_for_display
  have hq : (n : ℚ) < 6000 := by exact_mod_cast h2
  rw [if_pos (by linarith : (n : ℚ) / 100 < 60), fmt2_div100]

/-- Track values of a minute or more format as minutes, a colon and the
zero-padded remaining seconds. -/
theorem format_track_ge60 (n : Nat) (h : 6000 ≤ n) :
    format_time_for_display ((n : ℚ) / 100)
      = renderNat (n / 6000) ++ ':' ::
          padZeroTo 5 (renderNat ((n % 6000) / 100) ++ '.' :: twoDigits (n % 100)) := by
  unfold format_time_for_display
  have hq : (6000 : ℚ) ≤ (n : ℚ) := by exact_mod_cast h
  rw [if_neg (by intro hcon; linarith : ¬((n : ℚ) / 100 < 60))]
  have hdiv : (n : ℚ) / 100 / 60 = (n : ℚ) / 6000 := by ring
  have hfl : (⌊(n : ℚ) / 100 / 60⌋).toNat = n / 6000 := by
    rw [hdiv, Int.floor_toNat]
    have : ((6000 : ℕ) : ℚ) = (6000 : ℚ) := by norm_num
    rw [← this, Nat.floor_div_eq_div]
  rw [hfl]
  have hsum : (6000 : ℚ) * ((n / 6000 : ℕ) : ℚ) + ((n % 6000 : ℕ) : ℚ) = (n : ℚ) := by
    exact_mod_cast congrArg (fun k : ℕ => (k : ℚ)) (Nat.div_add_mod n 6000)
  have hrem : (n : ℚ) / 100 - 60 * ((n / 6000 : ℕ) : ℚ) = ((n % 6000 : ℕ) : ℚ) / 100 := by
    field_simp
    linarith
  show renderNat (n / 6000) ++ ':' ::
      padZeroTo 5 (fmt2 ((n : ℚ) / 100 - 60 * ((n / 6000 : ℕ) : ℚ))) = _
  rw [hrem, fmt2_div100, Nat.mod_mod_of_dvd n (by norm_num : (100 : ℕ) ∣ 6000)]

/-- Field values format as digits, a dot, two digits and the unit letter. -/
theorem format_field (n : Nat) :
    format_result_value ((n : ℚ) / 100) ("Field")
      = (renderNat (n / 100) ++ '.' :: twoDigits (n % 100)) ++ ['m'] := by
  unfold format_result_value
  rw [if_neg (by decide), fmt2_div100]

/-- `parse_time_input` on a colon-free, whitespace-free string takes the
plain-seconds branch. -/
theorem parse_time_input_no_colon (l : List Char)
    (hws : ∀ c ∈ l, c.isWhitespace = false) (hnc : ∀ c ∈ l, c ≠ ':') :
    parse_time_input l
      = match parseFloatChars l with
        | some seconds => if seconds ≤ 0 then none else some seconds
        | none => none := by
  unfold parse_time_input
  rw [stripChars_eq_self l hws]
  simp only [contains_colon_eq_false l hnc, Bool.false_eq_true, if_false]

/-- `parse_time_input` on a whitespace-free string with exactly one colon
parses the two parts. -/
theorem parse_time_input_colon_form (l1 l2 : List Char)
    (hws : ∀ c ∈ l1 ++ ':' :: l2, c.isWhitespace = false)
    (h1 : ∀ c ∈ l1, c ≠ ':') (h2 : ∀ c ∈ l2, c ≠ ':') :
    parse_time_input (l1 ++ ':' :: l2)
      = match parseFloatChars l1, parseFloatChars l2 with
        | some minutes, some seconds =>
            if minutes < 0 ∨ seconds < 0 ∨ 60 ≤ seconds then none
            else some (minutes * 60 + seconds)
        | _, _ => none := by
  unfold parse_time_input
  rw [stripChars_eq_self _ hws]
  simp only [contains_colon_of_mem _ (List.mem_append.mpr (Or.inr (List.mem_cons_self _ _))),
    if_true, splitColon_append l2 l1 h1, splitColon_no_colon l2 h2]

/-- A displayed value with its trailing unit letter does not parse as a
time. -/
theorem parse_time_formatted_unit_none (ip frac : List Char) (u : Char)
    (hne : ip ≠ []) (hip : ∀ c ∈ ip, c.isDigit = true)
    (hfrac : ∀ c ∈ frac, c.isDigit = true)
    (hu_dig : u.isDigit = false) (hu_col : u ≠ ':') (hu_ws : u.isWhitespace = false) :
    parse_time_input ((ip ++ '.' :: frac) ++ [u]) = none := by
  have hws : ∀ c ∈ (ip ++ '.' :: frac) ++ [u], c.isWhitespace = false := by
    intro c hc
    rcases List.mem_append.mp hc with h | h
    · rcases List.mem_append.mp h with h2 | h2
      · exact isDigit_not_whitespace c (hip c h2)
      · rcases List.mem_cons.mp h2 with h3 | h3
        · subst h3; decide
        · exact isDigit_not_whitespace c (hfrac c h3)
    · rw [List.mem_singleton] at h
      subst h
      exact hu_ws
  have hnc : ∀ c ∈ (ip ++ '.' :: frac) ++ [u], c ≠ ':' := by
    intro c hc
    rcases List.mem_append.mp hc with h | h
    · rcases List.mem_append.mp h with h2 | h2
      · exact isDigit_ne c ':' (by decide) (hip c h2)
      · rcases List.mem_cons.mp h2 with h3 | h3
        · subst h3; decide
        · exact isDigit_ne c ':' (by decide) (hfrac c h3)
    · rw [List.mem_singleton] at h
      subst h
      exact hu_col
  rw [parse_time_input_no_colon _ hws hnc]
  have hshape : (ip ++ '.' :: frac) ++ [u] = ip ++ '.' :: (frac ++ [u]) := by
    rw [List.append_assoc]
    rfl
  rw [hshape]
  obtain ⟨c, t, rfl⟩ : ∃ c t, ip = c :: t := by
    cases ip with
    | nil => exact absurd rfl hne
    | cons c t => exact ⟨c, t, rfl⟩
  rw [List.cons_append, parseFloatChars_of_digit c _ (hip c (List.mem_cons_self c t)),
    ← List.cons_append,
    parseUnsignedFloat_trailing_unit (c :: t) (frac) u hip hu_dig]

/-- `float()` on a digits-dot-digits string returns the two-part value. -/
theorem parseFloatChars_digits_frac (ip frac : List Char) (hne : ip ≠ [])
    (hip : ∀ c ∈ ip, c.isDigit = true) (hfrac : ∀ c ∈ frac, c.isDigit = true) :
    parseFloatChars (ip ++ '.' :: frac)
      = some ((digitsToNat ip : ℚ) + (digitsToNat frac : ℚ) / (10 : ℚ) ^ frac.length) := by
  obtain ⟨c, t, rfl⟩ : ∃ c t, ip = c :: t := by
    cases ip with
    | nil => exact absurd rfl hne
    | cons c t => exact ⟨c, t, rfl⟩
  rw [List.cons_append, parseFloatChars_of_digit c _ (hip c (List.mem_cons_self c t)),
    ← List.cons_append, parseUnsignedFloat_int_frac (c :: t) frac hne hip hfrac]

/-- The two-decimal digit split recombines to the exact value. -/
theorem two_dec_value (n : Nat) :
    ((n / 100 : ℕ) : ℚ) + ((n % 100 : ℕ) : ℚ) / (10 : ℚ) ^ (2 : ℕ) = (n : ℚ) / 100 := by
  have h := congrArg (fun k : ℕ => (k : ℚ)) (Nat.div_add_mod n 100)
  push_cast at h
  field_simp
  linarith

/-- Parsing the suffix-stripped sub-minute display recovers the value
exactly. -/
theorem parse_two_dec (n : Nat) (h0 : 0 < n) :
    parse_time_input (renderNat (n / 100) ++ '.' :: twoDigits (n % 100))
      = some ((n : ℚ) / 100) := by
  have hip := renderNat_digits (n / 100)
  have hfrac := twoDigits_digits (n % 100) (by omega)
  have hws : ∀ c ∈ renderNat (n / 100) ++ '.' :: twoDigits (n % 100),
      c.isWhitespace = false := by
    intro c hc
    rcases List.mem_append.mp hc with h | h
    · exact isDigit_not_whitespace c (hip c h)
    · rcases List.mem_cons.mp h with h3 | h3
      · subst h3; decide
      · exact isDigit_not_whitespace c (hfrac c h3)
  have hnc : ∀ c ∈ renderNat (n / 100) ++ '.' :: twoDigits (n % 100), c ≠ ':' := by
    intro c hc
    rcases List.mem_append.mp hc with h | h
    · exact isDigit_ne c ':' (by decide) (hip c h)
    · rcases List.mem_cons.mp h with h3 | h3
      · subst h3; decide
      · exact isDigit_ne c ':' (by decide) (hfrac c h3)
  rw [parse_time_input_no_colon _ hws hnc,
    parseFloatChars_digits_frac _ _ (renderNat_ne_nil _) hip hfrac,
    digitsToNat_renderNat, digitsToNat_twoDigits _ (by omega)]
  have hlen : (twoDigits (n % 100)).length = 2 := rfl
  rw [hlen, two_dec_value n]
  show (if (n : ℚ) / 100 ≤ 0 then (none : Option ℚ) else some ((n : ℚ) / 100))
      = some ((n : ℚ) / 100)
  rw [if_neg]
  intro hcon
  have hpos : (0 : ℚ) < (n : ℚ) := by exact_mod_cast h0
  linarith

/-- `float()` on a pure digit string. -/
theorem parseFloatChars_digits (l : List Char) (hne : l ≠ [])
    (hdig : ∀ c ∈ l, c.isDigit = true) :
    parseFloatChars l = some (digitsToNat l : ℚ) := by
  obtain ⟨c, t, rfl⟩ : ∃ c t, l = c :: t := by
    cases l with
    | nil => exact absurd rfl hne
    | cons c t => exact ⟨c, t, rfl⟩
  rw [parseFloatChars_of_digit c t (hdig c (List.mem_cons_self c t)),
    parseUnsignedFloat_digits _ hne hdig]

/-- Parsing the `M:SS.ss` display of a two-decimal value of at least a minute
recovers the value exactly. -/
theorem parse_colon_format (n : Nat) :
    parse_time_input (renderNat (n / 6000) ++ ':' ::
        padZeroTo 5 (renderNat ((n % 6000) / 100) ++ '.' :: twoDigits (n % 100)))
      = some ((n : ℚ) / 100) := by
  have hb2 : (n % 6000) / 100 < 60 := by omega
  have hr : n % 100 < 100 := by omega
  have hpad : padZeroTo 5 (renderNat ((n % 6000) / 100) ++ '.' :: twoDigits (n % 100))
      = (List.replicate
            (5 - (renderNat ((n % 6000) / 100) ++ '.' :: twoDigits (n % 100)).length) '0'
          ++ renderNat ((n % 6000) / 100)) ++ '.' :: twoDigits (n % 100) := by
    unfold padZeroTo
    rw [← List.append_assoc]
  have hip2 : ∀ c ∈ List.replicate
        (5 - (renderNat ((n % 6000) / 100) ++ '.' :: twoDigits (n % 100)).length) '0'
      ++ renderNat ((n % 6000) / 100), c.isDigit = true := by
    intro c hc
    rcases List.mem_append.mp hc with h2 | h2
    · rw [List.eq_of_mem_replicate h2]
      decide
    · exact renderNat_digits _ c h2
  have hne2 : List.replicate
        (5 - (renderNat ((n % 6000) / 100) ++ '.' :: twoDigits (n % 100)).length) '0'
      ++ renderNat ((n % 6000) / 100) ≠ [] := by
    intro hcon
    exact renderNat_ne_nil _ (List.append_eq_nil.mp hcon).2
  rw [hpad]
  have hws : ∀ c ∈ renderNat (n / 6000) ++ ':' ::
      ((List.replicate
          (5 - (renderNat ((n % 6000) / 100) ++ '.' :: twoDigits (n % 100)).length) '0'
        ++ renderNat ((n % 6000) / 100)) ++ '.' :: twoDigits (n % 100)),
      c.isWhitespace = false := by
    intro c hc
    rcases List.mem_append.mp hc with h2 | h2
    · exact isDigit_not_whitespace c (renderNat_digits _ c h2)
    · rcases List.mem_cons.mp h2 with h3 | h3
      · subst h3; decide
      · rcases List.mem_append.mp h3 with h4 | h4
        · exact isDigit_not_whitespace c (hip2 c h4)
        · rcases List.mem_cons.mp h4 with h5 | h5
          · subst h5; decide
          · exact isDigit_not_whitespace c (twoDigits_digits _ hr c h5)
  have hc1 : ∀ c ∈ renderNat (n / 6000), c ≠ ':' := fun c hc =>
    isDigit_ne c ':' (by decide) (renderNat_digits _ c hc)
  have hc2 : ∀ c ∈ (List.replicate
        (5 - (renderNat ((n % 6000) / 100) ++ '.' :: twoDigits (n % 100)).length) '0'
      ++ renderNat ((n % 6000) / 100)) ++ '.' :: twoDigits (n % 100), c ≠ ':' := by
    intro c hc
    rcases List.mem_append.mp hc with h4 | h4
    · exact isDigit_ne c ':' (by decide) (hip2 c h4)
    · rcases List.mem_cons.mp h4 with h5 | h5
      · subst h5; decide
      · exact isDigit_ne c ':' (by decide) (twoDigits_digits _ hr c h5)
  rw [parse_time_input_colon_form _ _ hws hc1 hc2]
  have hl1 : parseFloatChars (renderNat (n / 6000)) = some (((n / 6000 : ℕ) : ℚ)) := by
    rw [parseFloatChars_digits _ (renderNat_ne_nil _) (renderNat_digits _),
      digitsToNat_renderNat]
  have hl2 : parseFloatChars ((List.replicate
        (5 - (renderNat ((n % 6000) / 100) ++ '.' :: twoDigits (n % 100)).length) '0'
      ++ renderNat ((n % 6000) / 100)) ++ '.' :: twoDigits (n % 100))
      = some ((((n % 6000) / 100 : ℕ) : ℚ) + ((n % 100 : ℕ) : ℚ) / (10 : ℚ) ^ (2 : ℕ)) := by
    rw [parseFloatChars_digits_frac _ _ hne2 hip2 (twoDigits_digits _ hr),
      digitsToNat_replicate_zero, digitsToNat_renderNat,
      digitsToNat_twoDigits _ hr]
    rfl
  rw [hl1, hl2]
  have hcond : ¬((((n / 6000 : ℕ) : ℚ)) < 0
      ∨ (((n % 6000) / 100 : ℕ) : ℚ) + ((n % 100 : ℕ) : ℚ) / (10 : ℚ) ^ (2 : ℕ) < 0
      ∨ (60 : ℚ) ≤ (((n % 6000) / 100 : ℕ) : ℚ)
          + ((n % 100 : ℕ) : ℚ) / (10 : ℚ) ^ (2 : ℕ)) := by
    have e1 : (0 : ℚ) ≤ ((n / 6000 : ℕ) : ℚ) := Nat.cast_nonneg _
    have e2 : (0 : ℚ) ≤ (((n % 6000) / 100 : ℕ) : ℚ) := Nat.cast_nonneg _
    have e3 : (0 : ℚ) ≤ ((n % 100 : ℕ) : ℚ) := Nat.cast_nonneg _
    have e4 : (((n % 6000) / 100 : ℕ) : ℚ) ≤ 59 := by exact_mod_cast Nat.le_of_lt_succ hb2
    have e5 : ((n % 100 : ℕ) : ℚ) < 100 := by exact_mod_cast hr
    have e6 : ((n % 100 : ℕ) : ℚ) / (10 : ℚ) ^ (2 : ℕ) < 1 := by
      rw [show ((10 : ℚ)) ^ (2 : ℕ) = 100 by norm_num]
      linarith
    have e7 : (0 : ℚ) ≤ ((n % 100 : ℕ) : ℚ) / (10 : ℚ) ^ (2 : ℕ) := by positivity
    push_neg
    exact ⟨by linarith, by linarith, by linarith⟩
  show (if (((n / 6000 : ℕ) : ℚ)) < 0
      ∨ (((n % 6000) / 100 : ℕ) : ℚ) + ((n % 100 : ℕ) : ℚ) / (10 : ℚ) ^ (2 : ℕ) < 0
      ∨ (60 : ℚ) ≤ (((n % 6000) / 100 : ℕ) : ℚ)
          + ((n % 100 : ℕ) : ℚ) / (10 : ℚ) ^ (2 : ℕ) then none
    else some (((n / 6000 : ℕ) : ℚ) * 60 + ((((n % 6000) / 100 : ℕ) : ℚ)
          + ((n % 100 : ℕ) : ℚ) / (10 : ℚ) ^ (2 : ℕ))))
    = some ((n : ℚ) / 100)
  rw [if_neg hcond]
  congr 1
  have hA : (6000 : ℚ) * ((n / 6000 : ℕ) : ℚ) + ((n % 6000 : ℕ) : ℚ) = (n : ℚ) := by
    exact_mod_cast Nat.div_add_mod n 6000
  have hB : (100 : ℚ) * (((n % 6000) / 100 : ℕ) : ℚ) + ((n % 100 : ℕ) : ℚ)
      = ((n % 6000 : ℕ) : ℚ) := by
    have h0 : 100 * ((n % 6000) / 100) + n % 100 = n % 6000 := by
      have h1 := Nat.div_add_mod (n % 6000) 100
      rwa [Nat.mod_mod_of_dvd n (by norm_num : (100 : ℕ) ∣ 6000)] at h1
    exact_mod_cast h0
  field_simp
  linarith

/-- `float()` rejects a displayed value carrying its trailing unit letter. -/
theorem parseFloatChars_trailing_unit (ip frac : List Char) (u : Char) (hne : ip ≠ [])
    (hip : ∀ c ∈ ip, c.isDigit = true) (hu : u.isDigit = false) :
    parseFloatChars ((ip ++ '.' :: frac) ++ [u]) = none := by
  have hshape : (ip ++ '.' :: frac) ++ [u] = ip ++ '.' :: (frac ++ [u]) := by
    rw [List.append_assoc]
    rfl
  rw [hshape]
  obtain ⟨c, t, rfl⟩ : ∃ c t, ip = c :: t := by
    cases ip with
    | nil => exact absurd rfl hne
    | cons c t => exact ⟨c, t, rfl⟩
  rw [List.cons_append, parseFloatChars_of_digit c _ (hip c (List.mem_cons_self c t)),
    ← List.cons_append, parseUnsignedFloat_trailing_unit (c :: t) frac u hip hu]

/-- Claim C4 (amended): the display format appends a unit suffix that the
parser rejects, so the round trip holds exactly — not merely within 1e-6 —
for two-decimal Track values of at least one minute (formatted `M:SS.ss`),
while sub-minute Track values (`SS.sss`) and Field values (`XX.XXm`) parse
back only after the trailing unit letter is stripped. -/
theorem parse_format_roundtrip_amended (n : Nat) (h0 : 0 < n) :
    (6000 ≤ n →
      parse_time_input (format_result_value ((n : ℚ) / 100) ("Track"))
        = some ((n : ℚ) / 100))
    ∧ (n < 6000 →
      parse_time_input (format_result_value ((n : ℚ) / 100) ("Track")) = none
      ∧ parse_time_input ((format_result_value ((n : ℚ) / 100) ("Track")).dropLast)
          = some ((n : ℚ) / 100))
    ∧ (parseFloatChars (format_result_value ((n : ℚ) / 100) ("Field")) = none
      ∧ parseFloatChars ((format_result_value ((n : ℚ) / 100) ("Field")).dropLast)
          = some ((n : ℚ) / 100)) := by
  have hfmtT : format_result_value ((n : ℚ) / 100) ("Track")
      = format_time_for_display ((n : ℚ) / 100) := by
    unfold format_result_value
    rw [if_pos rfl]
  refine ⟨?_, ?_, ?_, ?_⟩
  · intro hge
    rw [hfmtT, format_track_ge60 n hge, parse_colon_format n]
  · intro hlt
    constructor
    · rw [hfmtT, format_track_sub60 n hlt]
      exact parse_time_formatted_unit_none _ _ 's' (renderNat_ne_nil _)
        (renderNat_digits _) (twoDigits_digits _ (by omega)) (by decide) (by decide)
        (by decide)
    · rw [hfmtT, format_track_sub60 n hlt, List.dropLast_concat, parse_two_dec n h0]
  · rw [format_field n]
    exact parseFloatChars_trailing_unit _ _ 'm' (renderNat_ne_nil _)
      (renderNat_digits _) (by decide)
  · rw [format_field n, List.dropLast_concat,
      parseFloatChars_digits_frac _ _ (renderNat_ne_nil _) (renderNat_digits _)
        (twoDigits_digits _ (by omega)),
      digitsToNat_renderNat, digitsToNat_twoDigits _ (by omega),
      show (twoDigits (n % 100)).length = 2 from rfl, two_dec_value n]

/-- Claim C4 counterexample: the valid Track value 12.34 displays as
`"12.34s"`, and parsing that display fails outright — the round trip does not
return 12.34 within any tolerance. -/
theorem parse_format_roundtrip_counterexample :
    format_result_value ((12.34 : ℚ)) ("Track") = ("12.34s".data)
      ∧ parse_time_input (("12.34s").data) = none := by
  constructor
  · have h12 : (12.34 : ℚ) = ((1234 : ℕ) : ℚ) / 100 := by norm_num
    have hfmtT : format_result_value ((12.34 : ℚ)) ("Track")
        = format_time_for_display ((12.34 : ℚ)) := by
      unfold format_result_value
      rw [if_pos rfl]
    rw [hfmtT, h12, format_track_sub60 1234 (by norm_num)]
    simp +decide [renderNat, twoDigits, Nat.digitChar]
  · simp +decide [parse_time_input, stripChars, splitColon, parseFloatChars,
      parseUnsignedFloat]

/-- Concrete instance of claim C2's theorem: a one-event store, hypotheses
checked by computation. -/
theorem recalculate_all_points_recomputes_every_event_witness :
    projEvent 1 (recomputeAll [⟨1, ("Track"), false, individualAlloc, none, none⟩]
        ⟨[⟨1, ("A1"), 1, Gender.male, ("Ignis"), 12, 999, 0⟩], []⟩)
      = projEvent 1 (dispatchEvent ⟨1, ("Track"), false, individualAlloc, none, none⟩
        ⟨[⟨1, ("A1"), 1, Gender.male, ("Ignis"), 12, 999, 0⟩], []⟩) :=
  recalculate_all_points_recomputes_every_event
    [⟨1, ("Track"), false, individualAlloc, none, none⟩]
    ⟨[⟨1, ("A1"), 1, Gender.male, ("Ignis"), 12, 999, 0⟩], []⟩
    ⟨1, ("Track"), false, individualAlloc, none, none⟩
    (List.mem_singleton.mpr rfl) (List.pairwise_singleton _ _) List.Pairwise.nil

/-- Concrete instance of claim C4's amended theorem: 83.45 seconds displays
as `1:23.45` and parses back exactly. -/
theorem parse_format_roundtrip_amended_witness :
    parse_time_input (format_result_value (((8345 : ℕ) : ℚ) / 100) ("Track"))
      = some (((8345 : ℕ) : ℚ) / 100) :=
  (parse_format_roundtrip_amended 8345 (by decide)).1 (by decide)

/-- Concrete instance of claim C5's theorem: two tied Track rows, hypotheses
checked by computation. -/
theorem ties_get_distinct_adjacent_positions_witness :
    (⟨2, "B1", 1, Gender.male, "Terra", (10 : ℚ), 2, 6⟩ : RRow).result_value
      = (⟨1, "A1", 1, Gender.male, "Ignis", (10 : ℚ), 1, 10⟩ : RRow).result_value :=
  (ties_get_distinct_adjacent_positions_in_input_order.2.1 individualAlloc
    [⟨1, ("A1"), 1, Gender.male, ("Ignis"), 10, 999, 0⟩,
     ⟨2, ("B1"), 1, Gender.male, ("Terra"), 10, 999, 0⟩]
    ⟨1, ("A1"), 1, Gender.male, ("Ignis"), 10, 1, 10⟩
    ⟨2, ("B1"), 1, Gender.male, ("Terra"), 10, 2, 6⟩
    ⟨2, ("B1"), 1, Gender.male, ("Terra"), 10, 2, 6⟩).1
    (by decide) (by decide) (by decide) (by decide) (by decide) (by decide)

/-- Concrete instance of claim C6's theorem: 11 s beats 12 s on the Track. -/
theorem position_respects_measurement_witness :
    (⟨1, "A1", 1, Gender.male, "Ignis", (11 : ℚ), 1, 10⟩ : RRow).position
      < (⟨2, "B1", 1, Gender.male, "Terra", (12 : ℚ), 2, 6⟩ : RRow).position :=
  (position_respects_measurement individualAlloc
    [⟨1, ("A1"), 1, Gender.male, ("Ignis"), 11, 999, 0⟩,
     ⟨2, ("B1"), 1, Gender.male, ("Terra"), 12, 999, 0⟩]
    ⟨1, ("A1"), 1, Gender.male, ("Ignis"), 11, 1, 10⟩
    ⟨2, ("B1"), 1, Gender.male, ("Terra"), 12, 2, 6⟩).1
    (by decide) (by decide) (by decide)

/-- Concrete instance of claim C9's theorem: inserting into an empty store
preserves the uniqueness invariant. -/
theorem submit_result_duplicate_semantics_witness :
    uniquePerAthleteEvent
      (add_result [] [] ("A1") 1 12 Gender.male ("Ignis") 7).snd :=
  (submit_result_duplicate_semantics [] [] ("A1") 1 12 Gender.male ("Ignis") 7).2.2
    List.Pairwise.nil

/-- Concrete instance of claim C10's theorem: with the recomputation step
failing, the inserted Measurement is committed with the sentinels. -/
theorem sentinel_insert_then_recompute_witness :
    (addResultWithRecalc [] [] ("A1") 1 12 Gender.male ("Ignis") 7 false).snd
      = [] ++ [⟨7, ("A1"), 1, Gender.male, ("Ignis"), 12, 999, 0⟩] :=
  (sentinel_insert_then_recompute [] [] ("A1") 1 12 Gender.male ("Ignis") 7
    (by decide)).2.1

end Eclipse
